import Mathlib

/-!
Verification of the structured-document flow/pagination engine specified in
spec.md for the mountwinter-isms-compliance repository.  The repository's
source files under src/test_case are authoring scripts (callers of the
engine); the engine itself is not part of src/, so its data model and
operations are modelled from the spec (sections 3, 4.1-4.4), as marked on
each definition.  The concrete table data appearing in the theorems about
repository data (column widths, margins, row-banding commands) is embedded
directly from the scripts.
-/

namespace DocSpec

/-- Modelled from the spec: the layout error taxonomy of section 7. -/
inductive LayoutErr where
  | unknownStyle
  | styleCycle
  | layout
  | unsplittableTable
  | unsplittableRow
  | contentOverflow
  deriving DecidableEq

/-- Modelled from the spec: paragraph alignment values (section 3). -/
inductive Alignment where
  | left
  | center
  | right
  | justify
  deriving DecidableEq

/-- Modelled from the spec: a fully resolved style record (section 3). -/
structure Style where
  fontFamily : String
  fontSize : ℚ
  color : String
  alignment : Alignment
  spaceBefore : ℚ
  spaceAfter : ℚ
  bold : Bool
  italic : Bool
  deriving DecidableEq

/-- Modelled from the spec: a named style declaration with optional fields;
unset fields inherit from the parent style (section 3). -/
structure StyleDef where
  parent : Option String := none
  fontFamily : Option String := none
  fontSize : Option ℚ := none
  color : Option String := none
  alignment : Option Alignment := none
  spaceBefore : Option ℚ := none
  spaceAfter : Option ℚ := none
  bold : Option Bool := none
  italic : Option Bool := none
  deriving DecidableEq

/-- Modelled from the spec: the Style Registry, a read-only collection of
named style declarations populated before rendering (section 4.1). -/
abbrev Registry := List (String × StyleDef)

/-- Association lookup in the registry. -/
def lookupStyle : Registry → String → Option StyleDef
  | [], _ => none
  | (k, d) :: rest, n => if k = n then some d else lookupStyle rest n

/-- Modelled from the spec: the root style with fully-specified defaults at
which every resolution chain terminates (section 4.1). -/
def rootStyle : Style :=
  { fontFamily := "Helvetica", fontSize := 10, color := "black"
    alignment := Alignment.left, spaceBefore := 0, spaceAfter := 0
    bold := false, italic := false }

/-- Merge one declaration over a base style: fields set in the child
declaration override the base, unset fields inherit (section 4.1). -/
def applyDef (base : Style) (d : StyleDef) : Style :=
  { fontFamily := d.fontFamily.getD base.fontFamily
    fontSize := d.fontSize.getD base.fontSize
    color := d.color.getD base.color
    alignment := d.alignment.getD base.alignment
    spaceBefore := d.spaceBefore.getD base.spaceBefore
    spaceAfter := d.spaceAfter.getD base.spaceAfter
    bold := d.bold.getD base.bold
    italic := d.italic.getD base.italic }

/-- Modelled from the spec: walk the ancestor chain of a name, failing with
UnknownStyleError on an unregistered name and with StyleCycleError when a
name already on the current resolution path is revisited (section 4.1).
Returns the declarations from the named style up to the root-most ancestor.
The fuel argument bounds the recursion; it never runs out when called with
more fuel than the registry has entries. -/
def chainDefsAux (reg : Registry) : ℕ → List String → String → Except LayoutErr (List StyleDef)
  | 0, _, _ => .error .styleCycle
  | fuel + 1, path, name =>
    if name ∈ path then .error .styleCycle
    else
      match lookupStyle reg name with
      | none => .error .unknownStyle
      | some d =>
        match d.parent with
        | none => .ok [d]
        | some p => (chainDefsAux reg fuel (name :: path) p).map (fun l => d :: l)

/-- Modelled from the spec: resolution merging the named style with its
ancestor chain as it walks it, child fields overriding parent fields,
with the same error behaviour as the chain walk (section 4.1). -/
def resolveAux (reg : Registry) : ℕ → List String → String → Except LayoutErr Style
  | 0, _, _ => .error .styleCycle
  | fuel + 1, path, name =>
    if name ∈ path then .error .styleCycle
    else
      match lookupStyle reg name with
      | none => .error .unknownStyle
      | some d =>
        match d.parent with
        | none => .ok (applyDef rootStyle d)
        | some p => (resolveAux reg fuel (name :: path) p).map (fun base => applyDef base d)

/-- Modelled from the spec: witness of a parent cycle reachable from a name;
true exactly when walking the parent chain revisits a name already on the
current resolution path (section 4.1). -/
def cycleFromAux (reg : Registry) : ℕ → List String → String → Bool
  | 0, _, _ => true
  | fuel + 1, path, name =>
    if name ∈ path then true
    else
      match lookupStyle reg name with
      | none => false
      | some d =>
        match d.parent with
        | none => false
        | some p => cycleFromAux reg fuel (name :: path) p

/-- Fuel sufficient for any resolution over the registry. -/
def styleFuel (reg : Registry) : ℕ := reg.length + 1

/-- Modelled from the spec: resolve of section 4.1, a pure lookup with no
side effect on the registry. -/
def resolveStyle (reg : Registry) (name : String) : Except LayoutErr Style :=
  resolveAux reg (styleFuel reg) [] name

/-- The ancestor-chain declarations of a name. -/
def chainDefs (reg : Registry) (name : String) : Except LayoutErr (List StyleDef) :=
  chainDefsAux reg (styleFuel reg) [] name

/-- Parent cycle reachable from a name. -/
def cycleFrom (reg : Registry) (name : String) : Bool :=
  cycleFromAux reg (styleFuel reg) [] name

/-- Merge of an ancestor chain over the root defaults, child (front of the
list) fields overriding parent fields. -/
def mergeChain (defs : List StyleDef) : Style :=
  defs.foldr (fun d acc => applyDef acc d) rootStyle

/-- A registry is parent-closed when every declared parent is itself
registered.  The repository-style registries built once before rendering
satisfy this. -/
def parentsClosedB (reg : Registry) : Bool :=
  reg.all (fun p =>
    match p.2.parent with
    | none => true
    | some q => (lookupStyle reg q).isSome)

/-- Modelled from the spec: one run of rich text with its own bold/italic
face (section 3). -/
structure Run where
  text : String
  bold : Bool := false
  italic : Bool := false
  deriving DecidableEq

/-- One word of a run: a maximal space-free character sequence, carrying
the face of the run it came from (section 4.2). -/
structure Word where
  chars : List Char
  bold : Bool
  italic : Bool
  deriving DecidableEq

/-- Split the characters of one run into words at spaces; the accumulator
holds the characters of the word being read, in reverse. -/
def splitWordsAux (b i : Bool) : List Char → List Char → List Word
  | cur, [] => if cur = [] then [] else [⟨cur.reverse, b, i⟩]
  | cur, c :: cs =>
    if c = ' ' then
      if cur = [] then splitWordsAux b i [] cs
      else ⟨cur.reverse, b, i⟩ :: splitWordsAux b i [] cs
    else splitWordsAux b i (c :: cur) cs

/-- The words of one run. -/
def runWords (r : Run) : List Word :=
  splitWordsAux r.bold r.italic [] r.text.data

/-- Modelled from the spec: the word sequence of a rich text; runs are
concatenated without altering the break algorithm (section 4.2). -/
def textWords (rt : List Run) : List Word :=
  (rt.map runWords).flatten

/-- Modelled from the spec: font metrics are abstracted (the spec treats
the rendering backend's metrics as external); bold and italic runs are
measured with their own per-character advance (section 4.2). -/
def charAdvance (b i : Bool) : ℚ :=
  if b && i then 13 / 20 else if b then 3 / 5 else if i then 11 / 20 else 1 / 2

/-- Measured width of one word at a font size. -/
def wordWidth (fs : ℚ) (w : Word) : ℚ :=
  fs * w.chars.length * charAdvance w.bold w.italic

/-- Width of the inter-word space at a font size. -/
def spaceAdv (fs : ℚ) : ℚ := fs / 4

/-- Natural (unjustified) measured width of a line: word widths plus one
inter-word space per word boundary. -/
def lineNat (fs : ℚ) (line : List Word) : ℚ :=
  (line.map (wordWidth fs)).sum + spaceAdv fs * ((line.length - 1 : ℕ) : ℚ)

/-- Modelled from the spec: greedy line breaking (section 4.2) — accumulate
words into the current line while the cumulative measured width stays
within the available width; break before the word that would overflow; a
single word wider than the available width is placed alone on its own
line.  The current line is always nonempty. -/
def breakLinesAux (fs avail : ℚ) (cur : List Word) : List Word → List (List Word)
  | [] => [cur]
  | w :: ws =>
    if lineNat fs (cur ++ [w]) ≤ avail then breakLinesAux fs avail (cur ++ [w]) ws
    else cur :: breakLinesAux fs avail [w] ws

/-- Modelled from the spec: the lines of a paragraph; empty rich text
produces a single empty line, preserving the vertical spacing contract
(section 4.2 edge case). -/
def flowLines (fs avail : ℚ) (rt : List Run) : List (List Word) :=
  match textWords rt with
  | [] => [[]]
  | w :: ws => breakLinesAux fs avail [w] ws

/-- Line height (leading) at a style's font size. -/
def lineHeight (sty : Style) : ℚ := sty.fontSize * 6 / 5

/-- Modelled from the spec: total height of a paragraph flowed at the
available column width (section 4.2). -/
def paragraphHeight (sty : Style) (avail : ℚ) (rt : List Run) : ℚ :=
  ((flowLines sty.fontSize avail rt).length : ℚ) * lineHeight sty

/-- Number of word boundaries of a line. -/
def gapCount (line : List Word) : ℕ := line.length - 1

/-- Modelled from the spec: justification distributes the extra horizontal
space evenly between the word boundaries of a line (section 4.2). -/
def justifiedWidth (avail nat : ℚ) (gaps : ℕ) : ℚ :=
  nat + (gaps : ℚ) * ((avail - nat) / (gaps : ℚ))

/-- Modelled from the spec: the rendered width of a line — justify
distributes extra space between word boundaries on all lines except the
last line of the paragraph; a line without word boundaries, and every line
under the other alignments, keeps its natural measured width
(section 4.2). -/
def renderedLineWidth (sty : Style) (avail : ℚ) (isLast : Bool) (line : List Word) : ℚ :=
  if sty.alignment = Alignment.justify ∧ isLast = false ∧ 2 ≤ line.length then
    justifiedWidth avail (lineNat sty.fontSize line) (gapCount line)
  else lineNat sty.fontSize line

/-- Tag each element of a list with whether it is the last one. -/
def markLast {α : Type} : List α → List (α × Bool)
  | [] => []
  | [a] => [(a, true)]
  | a :: b :: rest => (a, false) :: markLast (b :: rest)

/-- The rendered widths of a paragraph's lines, in order. -/
def renderedWidths (sty : Style) (avail : ℚ) (rt : List Run) : List ℚ :=
  (markLast (flowLines sty.fontSize avail rt)).map
    (fun p => renderedLineWidth sty avail p.2 p.1)

/-- Modelled from the spec: one table cell carrying rich text content
(section 3).  Spanned cells (rowspan/colspan greater than one) are not
modelled; none of the properties settled here involve spans. -/
structure Cell where
  content : List Run
  deriving DecidableEq

/-- Modelled from the spec: a Table block — ordered rows of cells, a
per-column fixed-width-or-auto declaration, an explicit permission to be
split across pages, a header-repeat declaration for row 0, and the row
padding added to each row's flowed height (sections 3 and 4.3). -/
structure Table where
  rows : List (List Cell)
  colWidths : List (Option ℚ)
  styleRef : String
  splittable : Bool := false
  headerRepeat : Bool := false
  rowPadding : ℚ := 0
  deriving DecidableEq

/-- Sum of the fixed column widths of a column declaration. -/
def fixedSum (cws : List (Option ℚ)) : ℚ := (cws.filterMap id).sum

/-- Number of auto columns of a column declaration. -/
def autoCount (cws : List (Option ℚ)) : ℕ := cws.countP (fun c => c.isNone)

/-- Modelled from the spec: column width resolution (section 4.3) —
explicit fixed widths are honored as given; auto columns share the width
remaining after fixed columns are subtracted, divided equally among auto
columns; fails with LayoutError if the sum of fixed widths exceeds the
available width. -/
def resolveColWidths (avail : ℚ) (cws : List (Option ℚ)) : Except LayoutErr (List ℚ) :=
  if avail < fixedSum cws then .error .layout
  else .ok (cws.map (fun c => c.getD ((avail - fixedSum cws) / (autoCount cws : ℚ))))

/-- Flowed height of one cell at its resolved column width (section 4.3,
reusing the paragraph flow of section 4.2). -/
def cellHeight (sty : Style) (w : ℚ) (c : Cell) : ℚ :=
  paragraphHeight sty w c.content

/-- Modelled from the spec: a row's height is the maximum of its cells'
flowed heights plus the row's padding (section 4.3). -/
def rowHeight (sty : Style) (pad : ℚ) (ws : List ℚ) (row : List Cell) : ℚ :=
  ((ws.zip row).map (fun p => cellHeight sty p.1 p.2)).foldr max 0 + pad

/-- Per-row heights of a table after width resolution and style
resolution. -/
def tableRowHeights (reg : Registry) (avail : ℚ) (t : Table) : Except LayoutErr (List ℚ) :=
  match resolveColWidths avail t.colWidths with
  | .error e => .error e
  | .ok ws =>
    match resolveStyle reg t.styleRef with
    | .error e => .error e
    | .ok sty => .ok (t.rows.map (rowHeight sty t.rowPadding ws))

/-- Modelled from the spec: the table's total height (section 4.3). -/
def tableHeight (reg : Registry) (avail : ℚ) (t : Table) : Except LayoutErr ℚ :=
  (tableRowHeights reg avail t).map List.sum

/-- Greedy accumulation of height-annotated rows: take rows until the next
row would overflow the capacity; returns the taken prefix and the
remainder (section 4.3 pagination). -/
def takeFit {α : Type} (cap : ℚ) : List (α × ℚ) → List (α × ℚ) × List (α × ℚ)
  | [] => ([], [])
  | (a, h) :: rest =>
    if h ≤ cap then
      let pr := takeFit (cap - h) rest
      ((a, h) :: pr.1, pr.2)
    else ([], (a, h) :: rest)

/-- Modelled from the spec: divide the remaining height-annotated rows into
page-sized chunks, each filled greedily to the continuation capacity; a
row that does not fit even an otherwise empty continuation page fails with
UnsplittableRowError (section 4.3 pagination).  The fuel argument bounds
the recursion; any fuel of at least the row count behaves identically. -/
def splitRest {α : Type} (cap : ℚ) : ℕ → List (α × ℚ) → Except LayoutErr (List (List (α × ℚ)))
  | _, [] => .ok []
  | 0, _ :: _ => .error .unsplittableRow
  | fuel + 1, r :: rest =>
    let pr := takeFit cap (r :: rest)
    if pr.1.isEmpty then .error .unsplittableRow
    else (splitRest cap fuel pr.2).map (fun ps => pr.1 :: ps)

/-- Modelled from the spec: row-wise splitting of a table (section 4.3
pagination).  Rows are accumulated onto the current page (capacity
firstCap) until the next row would overflow; the remainder continues as
new Table blocks on following pages (capacity capC), with the header row
re-emitted at the top of each continuation part if the table declares a
header-repeat row. -/
def splitTable (reg : Registry) (avail firstCap capC : ℚ) (t : Table) : Except LayoutErr (List Table) :=
  match resolveColWidths avail t.colWidths with
  | .error e => .error e
  | .ok ws =>
    match resolveStyle reg t.styleRef with
    | .error e => .error e
    | .ok sty =>
      let pr := t.rows.map (fun r => (r, rowHeight sty t.rowPadding ws r))
      if t.headerRepeat then
        match pr with
        | [] => .ok [{ t with rows := [] }]
        | hd :: body =>
          let hh := hd.2
          let fp := takeFit (firstCap - hh) body
          (splitRest (capC - hh) fp.2.length fp.2).map (fun ps =>
            { t with rows := hd.1 :: fp.1.map Prod.fst } ::
              ps.map (fun ch => { t with rows := hd.1 :: ch.map Prod.fst }))
      else
        let fp := takeFit firstCap pr
        (splitRest capC fp.2.length fp.2).map (fun ps =>
          { t with rows := fp.1.map Prod.fst } ::
            ps.map (fun ch => { t with rows := ch.map Prod.fst }))

/-- The data rows contributed by a sequence of split parts: all rows of the
first part, and the rows of every continuation part minus the re-emitted
header when the table declares a header-repeat row. -/
def dataRows (headerRepeat : Bool) : List Table → List (List Cell)
  | [] => []
  | p :: ps =>
    p.rows ++ (ps.map (fun q => if headerRepeat then q.rows.drop 1 else q.rows)).flatten

/-- Every row of the table fits a page of content height C, together with
the re-emitted header on continuation pages when the table declares a
header-repeat row. -/
def rowsFitB (sty : Style) (pad : ℚ) (ws : List ℚ) (headerRepeat : Bool) (C : ℚ)
    (rows : List (List Cell)) : Bool :=
  match headerRepeat, rows with
  | true, [] => true
  | true, hd :: body =>
    decide (rowHeight sty pad ws hd ≤ C) &&
      body.all (fun r => decide (rowHeight sty pad ws hd + rowHeight sty pad ws r ≤ C))
  | false, rs => rs.all (fun r => decide (rowHeight sty pad ws r ≤ C))

/-- Modelled from the spec: the tagged union of renderable units
(section 3). -/
inductive ContentBlock where
  | para (rt : List Run) (styleRef : String)
  | table (t : Table)
  | spacer (h : ℚ)
  | pageBreak
  deriving DecidableEq

/-- Modelled from the spec: a block's required height together with the
amount by which placing it advances the cursor — the height plus the
style's space-before and space-after (sections 4.2-4.4). -/
def blockExtent (reg : Registry) (avail : ℚ) : ContentBlock → Except LayoutErr (ℚ × ℚ)
  | .pageBreak => .ok (0, 0)
  | .spacer h => .ok (h, h)
  | .para rt sref =>
    match resolveStyle reg sref with
    | .error e => .error e
    | .ok sty =>
      .ok (paragraphHeight sty avail rt,
        paragraphHeight sty avail rt + sty.spaceBefore + sty.spaceAfter)
  | .table t =>
    match tableHeight reg avail t with
    | .error e => .error e
    | .ok h =>
      match resolveStyle reg t.styleRef with
      | .error e => .error e
      | .ok sty => .ok (h, h + sty.spaceBefore + sty.spaceAfter)

/-- The splittable table carried by a block, if any. -/
def splittableTableOf : ContentBlock → Option Table
  | .table t => if t.splittable then some t else none
  | _ => none

/-- Scheduler state: the finalized pages so far (each a list of placed
blocks in order), the page being filled, and its remaining height
(section 4.4). -/
structure SchedState where
  pages : List (List ContentBlock)
  cur : List ContentBlock
  rem : ℚ
  deriving DecidableEq

/-- Cursor advance of one split table part. -/
def partAdvance (reg : Registry) (avail : ℚ) (p : Table) : ℚ :=
  match blockExtent reg avail (.table p) with
  | .ok pr => pr.2
  | .error _ => 0

/-- Place the continuation parts of a split table, each at the top of a
fresh page of content height C (section 4.4). -/
def placeCont (reg : Registry) (avail C : ℚ) (st : SchedState) : List Table → SchedState
  | [] => st
  | p :: ps =>
    placeCont reg avail C
      ⟨st.pages ++ [st.cur], [ContentBlock.table p], C - partAdvance reg avail p⟩ ps

/-- Modelled from the spec: one step of the Page Flow Scheduler
(section 4.4).  PageBreak unconditionally finalizes the current page, even
if only partially filled, and starts a new page.  Any other block is
placed at the cursor if its required height fits the remaining height;
otherwise a splittable Table is split, its first part placed on the
current page and the remainder on following pages, and any other block is
retried at the top of a fresh page, failing with ContentOverflowError if
it does not fit an empty page either. -/
def stepBlock (reg : Registry) (W C : ℚ) (st : SchedState) (b : ContentBlock) :
    Except LayoutErr SchedState :=
  match b with
  | .pageBreak => .ok ⟨st.pages ++ [st.cur], [], C⟩
  | b =>
    match blockExtent reg W b with
    | .error e => .error e
    | .ok (h, adv) =>
      if h ≤ st.rem then .ok ⟨st.pages, st.cur ++ [b], st.rem - adv⟩
      else
        match splittableTableOf b with
        | some t =>
          match splitTable reg W st.rem C t with
          | .error e => .error e
          | .ok [] => .ok st
          | .ok (p :: ps) =>
            .ok (placeCont reg W C
              ⟨st.pages, st.cur ++ [ContentBlock.table p], st.rem - partAdvance reg W p⟩ ps)
        | none =>
          if h ≤ C then .ok ⟨st.pages ++ [st.cur], [b], C - adv⟩
          else .error .contentOverflow

/-- Run the scheduler over the block sequence; on exhaustion the last page
is finalized even if partially empty (section 4.4). -/
def renderAux (reg : Registry) (W C : ℚ) (st : SchedState) :
    List ContentBlock → Except LayoutErr (List (List ContentBlock))
  | [] => .ok (st.pages ++ [st.cur])
  | b :: bs =>
    match stepBlock reg W C st b with
    | .error e => .error e
    | .ok st2 => renderAux reg W C st2 bs

/-- Modelled from the spec: fixed page geometry; the content area is the
page size minus the margins (section 3). -/
structure PageGeom where
  width : ℚ
  height : ℚ
  marginTop : ℚ
  marginBottom : ℚ
  marginLeft : ℚ
  marginRight : ℚ
  deriving DecidableEq

/-- Content-area width of a page. -/
def contentWidth (g : PageGeom) : ℚ := g.width - g.marginLeft - g.marginRight

/-- Content-area height of a page. -/
def contentHeight (g : PageGeom) : ℚ := g.height - g.marginTop - g.marginBottom

/-- Modelled from the spec: a Document — an ordered block sequence, one
page geometry and a style registry (section 3). -/
structure Document where
  geom : PageGeom
  registry : Registry
  blocks : List ContentBlock
  deriving DecidableEq

/-- Modelled from the spec: the single entry point rendering a Document to
an ordered sequence of pages (sections 4.4 and 6). -/
def render (d : Document) : Except LayoutErr (List (List ContentBlock)) :=
  renderAux d.registry (contentWidth d.geom) (contentHeight d.geom)
    ⟨[], [], contentHeight d.geom⟩ d.blocks

/-- A block's individually computed required height fits within one page's
content area (the precondition of spec section 8, first property). -/
def fitsOnePage (reg : Registry) (W C : ℚ) (b : ContentBlock) : Bool :=
  match blockExtent reg W b with
  | .ok pr => decide (pr.1 ≤ C)
  | .error _ => true

/-- ReportLab's mm unit in points, embedded from the scripts'
`from reportlab.lib.units import mm`: 1 mm = 72 / 25.4 = 360 / 127 points. -/
def mmUnit : ℚ := 360 / 127

/-- A4 page width in points (210 mm), embedded from the scripts'
`pagesize=A4`. -/
def a4WidthPts : ℚ := 210 * mmUnit

/-- Content width of the corrective-action log document: A4 width minus
the 12 mm left and right margins of create_car_log.py lines 11-18. -/
def carLogContentWidth : ℚ := a4WidthPts - 12 * mmUnit - 12 * mmUnit

/-- Fixed column widths of the corrective-action register table,
create_car_log.py line 108. -/
def carColWidths : List (Option ℚ) :=
  [some 70, some 55, some 110, some 85, some 50, some 50, some 75, some 60]

/-- Content width of the audit report document: A4 width minus the 15 mm
left and right margins of create_audit_report.py lines 13-20. -/
def auditContentWidth : ℚ := a4WidthPts - 15 * mmUnit - 15 * mmUnit

/-- Fixed column widths of the audit findings summary table,
create_audit_report.py line 98. -/
def findingsColWidths : List (Option ℚ) := [some 150, some 100, some 200]

/-- A banded table of the repository: its number of rows, the row ranges
of its ROWBACKGROUNDS (banding) commands and the row ranges of its
explicit BACKGROUND commands, all as written in the script (negative row
indices count from the end, as in ReportLab). -/
structure BandedTable where
  name : String
  nRows : ℕ
  bands : List (Int × Int)
  explicitBg : List (Int × Int)
  deriving DecidableEq

/-- Resolve a possibly negative row index against the row count. -/
def resolveRow (n : ℕ) (r : Int) : Int := if r < 0 then (n : Int) + r else r

/-- Every table of the repository that carries a ROWBACKGROUNDS (banding)
command, embedded from the six scripts: name, row count, banding row
ranges, and the row ranges of its explicit BACKGROUND rules. -/
def repoBandedTables : List BandedTable :=
  [⟨"car_log.summary_table", 5, [(1, -1)], [(0, 0)]⟩,
   ⟨"car_log.car_table", 15, [(1, -1)], [(0, 0)]⟩,
   ⟨"audit_report.findings_table", 4, [(1, -1)], [(0, 0)]⟩,
   ⟨"incident_003.impact_table", 5, [(1, -1)], [(0, 0)]⟩,
   ⟨"incident_007.systems_table", 5, [(1, -1)], [(0, 0)]⟩,
   ⟨"management_review.attendees_table", 8, [(1, -1)], [(0, 0)]⟩,
   ⟨"management_review.actions_table", 12, [(1, -1)], [(0, 0)]⟩,
   ⟨"training_records.dept_table", 10, [(1, 1), (2, -2)], [(0, 0), (-1, -1)]⟩,
   ⟨"training_records.training_table_1", 18, [(1, -1)], [(0, 0)]⟩,
   ⟨"training_records.training_table_2", 21, [(1, -1)], [(0, 0)]⟩,
   ⟨"training_records.training_table_3", 19, [(1, -1)], [(0, 0)]⟩,
   ⟨"training_records.outstanding_table", 9, [(1, -1)], [(0, 0)]⟩]

/-- A banded table's banding commands cover only data rows (from index 1 to
the last row), never the header row 0, and an explicit BACKGROUND rule of
the table covers the header row 0. -/
def bandsExcludeHeader (t : BandedTable) : Prop :=
  (∀ b ∈ t.bands,
    1 ≤ resolveRow t.nRows b.1 ∧
    resolveRow t.nRows b.2 ≤ (t.nRows : Int) - 1 ∧
    resolveRow t.nRows b.1 ≤ resolveRow t.nRows b.2) ∧
  ∃ e ∈ t.explicitBg, resolveRow t.nRows e.1 ≤ 0 ∧ 0 ≤ resolveRow t.nRows e.2

/-- Every banded table of the repository satisfies `bandsExcludeHeader`. -/
def allBandsExcludeHeader : Prop :=
  ∀ t ∈ repoBandedTables, bandsExcludeHeader t

/-- Page geometry of the corrective-action log document, embedded from
create_car_log.py lines 11-18 (A4, 20 mm top, 15 mm bottom, 12 mm left
and right margins). -/
def carLogGeom : PageGeom :=
  { width := a4WidthPts, height := 297 * mmUnit
    marginTop := 20 * mmUnit, marginBottom := 15 * mmUnit
    marginLeft := 12 * mmUnit, marginRight := 12 * mmUnit }

/-- A table carrying the corrective-action register's fixed column widths
(create_car_log.py line 108); the rows are irrelevant to column-width
resolution. -/
def carWidthsTable : Table :=
  { rows := [], colWidths := carColWidths, styleRef := "body" }

/-- A one-entry registry used by the concrete examples below. -/
def reg0 : Registry := [("body", { fontSize := some 10 })]

/-- A two-entry registry with one inheritance edge, used by the concrete
examples below. -/
def regW : Registry :=
  [("base", { fontSize := some 12, spaceAfter := some 6 }),
   ("body", { parent := some "base", alignment := some Alignment.justify })]

/-- A justify-aligned style at font size 10. -/
def styJ : Style :=
  { fontFamily := "Helvetica", fontSize := 10, color := "black"
    alignment := Alignment.justify, spaceBefore := 0, spaceAfter := 0
    bold := false, italic := false }

/-- Rich text of two twelve-character words; at font size 10 each word
measures 60 units. -/
def rtTwoWide : List Run := [{ text := "aaaaaaaaaaaa aaaaaaaaaaaa" }]

/-- Rich text of four two-character words; at font size 10 each word
measures 10 units. -/
def rtFourWords : List Run := [{ text := "aa bb cc dd" }]

/-- The four words of `rtFourWords`. -/
def wordA : Word := ⟨['a', 'a'], false, false⟩

/-- Second word of `rtFourWords`. -/
def wordB : Word := ⟨['b', 'b'], false, false⟩

/-- Third word of `rtFourWords`. -/
def wordC : Word := ⟨['c', 'c'], false, false⟩

/-- Fourth word of `rtFourWords`. -/
def wordD : Word := ⟨['d', 'd'], false, false⟩

/-- A twelve-character word; at font size 10 it measures 60 units. -/
def wordWide : Word :=
  ⟨['a', 'a', 'a', 'a', 'a', 'a', 'a', 'a', 'a', 'a', 'a', 'a'], false, false⟩

/-- The fully defaulted style that `reg0` resolves "body" to. -/
def sty0 : Style :=
  { fontFamily := "Helvetica", fontSize := 10, color := "black"
    alignment := Alignment.left, spaceBefore := 0, spaceAfter := 0
    bold := false, italic := false }

/-- A splittable one-row table whose single empty-content cell flows to
one line of height 12 under `reg0`. -/
def tOneRow : Table :=
  { rows := [[⟨[]⟩]], colWidths := [none], styleRef := "body", splittable := true }

/-- A splittable two-row table of total height 24 under `reg0`. -/
def tTwoRows : Table :=
  { rows := [[⟨[]⟩], [⟨[]⟩]], colWidths := [none], styleRef := "body", splittable := true }

/-- A splittable three-row table with a header-repeat row, each row of
height 12 under `reg0`. -/
def tHeaderRows : Table :=
  { rows := [[⟨[]⟩], [⟨[]⟩], [⟨[]⟩]], colWidths := [none], styleRef := "body"
    splittable := true, headerRepeat := true }

/-- A 100 x 100 page with 10-unit margins: content area 80 x 80. -/
def smallGeom : PageGeom :=
  { width := 100, height := 100, marginTop := 10, marginBottom := 10
    marginLeft := 10, marginRight := 10 }

/-- A document whose blocks each individually fit one page. -/
def docFits : Document :=
  { geom := smallGeom, registry := reg0
    blocks := [.spacer 5, .para [] "body", .table tTwoRows] }

/-- A document with a PageBreak between two small paragraphs. -/
def docBreak : Document :=
  { geom := smallGeom, registry := reg0
    blocks := [.para [] "body", .pageBreak, .para [] "body"] }

theorem mergeChain_cons (d : StyleDef) (l : List StyleDef) :
    mergeChain (d :: l) = applyDef (mergeChain l) d := rfl

theorem resolveAux_eq_chainMerge (reg : Registry) :
    ∀ (fuel : ℕ) (path : List String) (name : String),
    resolveAux reg fuel path name = (chainDefsAux reg fuel path name).map mergeChain := by
  intro fuel
  induction fuel with
  | zero => intro path name; rfl
  | succ f ih =>
    intro path name
    by_cases hp : name ∈ path
    · simp [resolveAux, chainDefsAux, hp, Except.map]
    · cases hlk : lookupStyle reg name with
      | none => simp [resolveAux, chainDefsAux, hp, hlk, Except.map]
      | some d =>
        cases hpar : d.parent with
        | none => simp [resolveAux, chainDefsAux, hp, hlk, hpar, Except.map, mergeChain]
        | some p =>
          simp only [resolveAux, chainDefsAux, hp, hlk, hpar, if_neg, if_false, ih]
          cases chainDefsAux reg f (name :: path) p with
          | error e => rfl
          | ok l => rfl

theorem lookupStyle_mem (reg : Registry) (k : String) (d : StyleDef)
    (h : lookupStyle reg k = some d) : (k, d) ∈ reg := by
  induction reg with
  | nil => simp [lookupStyle] at h
  | cons hd tl ih =>
    obtain ⟨k0, d0⟩ := hd
    by_cases hk : k0 = k
    · simp only [lookupStyle, hk, if_pos rfl] at h
      subst hk
      injection h with h
      subst h
      exact List.mem_cons_self _ _
    · simp only [lookupStyle, hk, if_false] at h
      exact List.mem_cons_of_mem _ (ih h)

theorem parentsClosed_lookup (reg : Registry) (hwf : parentsClosedB reg = true)
    (k : String) (d : StyleDef) (hl : lookupStyle reg k = some d)
    (p : String) (hp : d.parent = some p) : (lookupStyle reg p).isSome = true := by
  have hmem := lookupStyle_mem reg k d hl
  have := (List.all_eq_true.mp hwf) (k, d) hmem
  simpa [hp] using this

theorem resolveAux_ne_unknown (reg : Registry) (hwf : parentsClosedB reg = true) :
    ∀ (fuel : ℕ) (path : List String) (name : String),
    (lookupStyle reg name).isSome = true →
    resolveAux reg fuel path name ≠ .error .unknownStyle := by
  intro fuel
  induction fuel with
  | zero => intro path name _ h; exact absurd h (by simp [resolveAux])
  | succ f ih =>
    intro path name hsome h
    by_cases hp : name ∈ path
    · simp [resolveAux, hp] at h
    · cases hlk : lookupStyle reg name with
      | none => rw [hlk] at hsome; simp at hsome
      | some d =>
        cases hpar : d.parent with
        | none => simp [resolveAux, hp, hlk, hpar] at h
        | some p =>
          simp only [resolveAux, hp, hlk, hpar, if_neg, if_false] at h
          have hps := parentsClosed_lookup reg hwf name d hlk p hpar
          cases hrec : resolveAux reg f (name :: path) p with
          | error e =>
            rw [hrec] at h
            simp only [Except.map] at h
            injection h with h
            exact ih (name :: path) p hps (hrec.trans (by rw [h]))
          | ok s => rw [hrec] at h; simp [Except.map] at h

theorem resolveAux_cycle_iff (reg : Registry) :
    ∀ (fuel : ℕ) (path : List String) (name : String),
    (resolveAux reg fuel path name = .error .styleCycle ↔
      cycleFromAux reg fuel path name = true) := by
  intro fuel
  induction fuel with
  | zero => intro path name; simp [resolveAux, cycleFromAux]
  | succ f ih =>
    intro path name
    by_cases hp : name ∈ path
    · simp [resolveAux, cycleFromAux, hp]
    · cases hlk : lookupStyle reg name with
      | none => simp [resolveAux, cycleFromAux, hp, hlk]
      | some d =>
        cases hpar : d.parent with
        | none => simp [resolveAux, cycleFromAux, hp, hlk, hpar]
        | some p =>
          simp only [resolveAux, cycleFromAux, hp, hlk, hpar, if_neg, if_false]
          rw [← ih (name :: path) p]
          cases hrec : resolveAux reg f (name :: path) p with
          | error e => cases e <;> simp [Except.map]
          | ok s => simp [Except.map]

theorem resolveAux_error_cases (reg : Registry) :
    ∀ (fuel : ℕ) (path : List String) (name : String) (e : LayoutErr),
    resolveAux reg fuel path name = .error e →
    e = LayoutErr.unknownStyle ∨ e = LayoutErr.styleCycle := by
  intro fuel
  induction fuel with
  | zero =>
    intro path name e h
    simp only [resolveAux] at h
    injection h with h
    exact Or.inr h.symm
  | succ f ih =>
    intro path name e h
    by_cases hp : name ∈ path
    · simp [resolveAux, hp] at h; exact Or.inr h.symm
    · cases hlk : lookupStyle reg name with
      | none =>
        simp only [resolveAux, hp, hlk, if_neg, if_false] at h
        injection h with h
        exact Or.inl h.symm
      | some d =>
        cases hpar : d.parent with
        | none => simp [resolveAux, hp, hlk, hpar] at h
        | some p =>
          simp only [resolveAux, hp, hlk, hpar, if_neg, if_false] at h
          cases hrec : resolveAux reg f (name :: path) p with
          | error e2 =>
            rw [hrec] at h
            simp only [Except.map] at h
            injection h with h
            exact h ▸ ih (name :: path) p e2 hrec
          | ok s => rw [hrec] at h; simp [Except.map] at h

/-- C7: `resolve(name)` fails with UnknownStyleError exactly when `name` is
not registered, fails with StyleCycleError exactly when resolution revisits
a name already on the current resolution path, and otherwise returns the
merge of the named style with its ancestor chain, child fields overriding
parent fields.  The registry is a parameter of the pure resolution function
and is not modified.  The hypothesis asks that every declared parent be
registered, the well-formedness the spec assumes of the registry populated
before rendering. -/
theorem claim7_resolve_contract (reg : Registry) (name : String)
    (hwf : parentsClosedB reg = true) :
    (resolveStyle reg name = .error .unknownStyle ↔ lookupStyle reg name = none) ∧
    (resolveStyle reg name = .error .styleCycle ↔ cycleFrom reg name = true) ∧
    ((lookupStyle reg name).isSome = true → cycleFrom reg name = false →
      ∃ defs, chainDefs reg name = .ok defs ∧
        resolveStyle reg name = .ok (mergeChain defs)) := by
  refine ⟨⟨fun h => ?_, fun h => ?_⟩, resolveAux_cycle_iff reg _ [] name, fun hsome hcyc => ?_⟩
  · cases hlk : lookupStyle reg name with
    | none => rfl
    | some d =>
      exact absurd h (resolveAux_ne_unknown reg hwf _ [] name (by simp [hlk]))
  · simp [resolveStyle, resolveAux, styleFuel, h]
  · have hne1 : resolveStyle reg name ≠ .error .unknownStyle := by
      intro h
      cases hlk : lookupStyle reg name with
      | none => rw [hlk] at hsome; simp at hsome
      | some d => exact resolveAux_ne_unknown reg hwf _ [] name (by simp [hlk]) h
    have hne2 : resolveStyle reg name ≠ .error .styleCycle := by
      intro h
      have h2 : cycleFrom reg name = true :=
        (resolveAux_cycle_iff reg (styleFuel reg) [] name).mp h
      rw [hcyc] at h2
      exact Bool.noConfusion h2
    cases hres : resolveStyle reg name with
    | error e =>
      rcases resolveAux_error_cases reg _ [] name e hres with h1 | h1 <;> subst h1
      · exact absurd hres hne1
      · exact absurd hres hne2
    | ok s =>
      have hch := resolveAux_eq_chainMerge reg (styleFuel reg) [] name
      have hres2 : resolveAux reg (styleFuel reg) [] name = .ok s := hres
      rw [hres2] at hch
      cases hcd : chainDefsAux reg (styleFuel reg) [] name with
      | error e2 => rw [hcd] at hch; simp [Except.map] at hch
      | ok defs =>
        rw [hcd] at hch
        simp only [Except.map] at hch
        injection hch with hch
        exact ⟨defs, hcd, congrArg Except.ok hch⟩

/-- Witness for C7 at the concrete registry `regW` and the registered name
"body". -/
theorem claim7_witness :
    parentsClosedB regW = true ∧
    ((lookupStyle regW "body").isSome = true → cycleFrom regW "body" = false →
      ∃ defs, chainDefs regW "body" = .ok defs ∧
        resolveStyle regW "body" = .ok (mergeChain defs)) :=
  ⟨by rfl, (claim7_resolve_contract regW "body" (by rfl)).2.2⟩

theorem justifiedWidth_eq (avail nat : ℚ) (g : ℕ) (hg : g ≠ 0) :
    justifiedWidth avail nat g = avail := by
  unfold justifiedWidth
  have hq : (g : ℚ) ≠ 0 := Nat.cast_ne_zero.mpr hg
  field_simp

/-- C6 (amended): for a justify-styled paragraph, every line except the
last that has at least two words (hence at least one word boundary) is
rendered exactly at the available column width, and the last line is
rendered at its natural unjustified width.  A non-last line with a single
word has no word boundary to stretch, so it keeps its natural width; the
claim as stated fails on such lines (see the counterexample). -/
theorem claim6_justify_law (sty : Style) (avail : ℚ) (rt : List Run)
    (hj : sty.alignment = Alignment.justify) :
    ∀ p ∈ markLast (flowLines sty.fontSize avail rt),
      (p.2 = false → 2 ≤ p.1.length → renderedLineWidth sty avail p.2 p.1 = avail) ∧
      (p.2 = true → renderedLineWidth sty avail p.2 p.1 = lineNat sty.fontSize p.1) := by
  intro p _hp
  constructor
  · intro hlast hlen
    rw [renderedLineWidth, if_pos ⟨hj, hlast, hlen⟩]
    apply justifiedWidth_eq
    unfold gapCount
    omega
  · intro hlast
    rw [renderedLineWidth, if_neg]
    intro hcond
    rw [hlast] at hcond
    exact Bool.noConfusion hcond.2.1

theorem flow_four : flowLines styJ.fontSize 25 rtFourWords = [[wordA, wordB], [wordC, wordD]] := by
  have ht : textWords rtFourWords = [wordA, wordB, wordC, wordD] := by decide
  simp only [flowLines, ht, styJ]
  norm_num [breakLinesAux, lineNat, wordWidth, spaceAdv, charAdvance, wordA, wordB, wordC, wordD]

/-- Witness for C6 (amended): the paragraph "aa bb cc dd" at font size 10
and available width 25 flows to two lines of two words each; the first
(non-last) line is rendered exactly at width 25. -/
theorem claim6_witness :
    styJ.alignment = Alignment.justify ∧
    ([wordA, wordB], false) ∈ markLast (flowLines styJ.fontSize 25 rtFourWords) ∧
    renderedLineWidth styJ 25 false [wordA, wordB] = 25 := by
  have hmem : (([wordA, wordB], false) : List Word × Bool) ∈
      markLast (flowLines styJ.fontSize 25 rtFourWords) := by
    rw [flow_four]; decide
  exact ⟨rfl, hmem,
    (claim6_justify_law styJ 25 rtFourWords rfl ([wordA, wordB], false) hmem).1 rfl (by decide)⟩

theorem flow_wide : flowLines styJ.fontSize 100 rtTwoWide = [[wordWide], [wordWide]] := by
  have ht : textWords rtTwoWide = [wordWide, wordWide] := by decide
  simp only [flowLines, ht, styJ]
  norm_num [breakLinesAux, lineNat, wordWidth, spaceAdv, charAdvance, wordWide]

/-- C6 as stated is false on the model: the justify-styled paragraph of
two twelve-character words at available width 100 flows to two lines, and
the first (non-last) line is rendered at its natural width 60, not at the
available width 100 — a single-word line has no word boundary between
which justification could distribute space. -/
theorem claim6_counterexample :
    styJ.alignment = Alignment.justify ∧
    (flowLines styJ.fontSize 100 rtTwoWide).length = 2 ∧
    renderedWidths styJ 100 rtTwoWide = [60, 60] ∧ (60 : ℚ) ≠ 100 := by
  refine ⟨rfl, by rw [flow_wide]; rfl, ?_, by norm_num⟩
  rw [renderedWidths, flow_wide]
  norm_num [markLast, renderedLineWidth, lineNat, wordWidth, spaceAdv, charAdvance,
    wordWide, styJ, justifiedWidth, gapCount]

/-- C8: `render` is deterministic — it is a pure function of the Document
(which carries the Style Registry), so two calls on equal Documents return
identical page sequences: same page count, same block-to-page assignment,
identical geometry inputs. -/
theorem claim8_deterministic (d1 d2 : Document) (h : d1 = d2) :
    render d1 = render d2 := by rw [h]

/-- Witness for C8 at the concrete document `docFits`. -/
theorem claim8_witness : render docFits = render docFits :=
  claim8_deterministic docFits docFits rfl

/-- C9: the repository's own corrective-action register table has fixed
column widths 70+55+110+85+50+50+75+60 = 555 layout units, which exceeds
the content width 66960/127 (about 527.2 points) of an A4 page with 12 mm
left and right margins, so the spec's column-width resolution fails with
LayoutError on the repository's own data. -/
theorem claim9_car_table_overflow :
    fixedSum carColWidths = 555 ∧
    carLogContentWidth = 66960 / 127 ∧
    carLogContentWidth < 555 ∧
    resolveColWidths carLogContentWidth carColWidths = .error .layout := by
  have hsum : fixedSum carColWidths = 555 := by
    norm_num [fixedSum, carColWidths, List.filterMap_cons]
  have hcw : carLogContentWidth = 66960 / 127 := by
    norm_num [carLogContentWidth, a4WidthPts, mmUnit]
  have hlt : carLogContentWidth < 555 := by rw [hcw]; norm_num
  refine ⟨hsum, hcw, hlt, ?_⟩
  rw [resolveColWidths, if_pos]
  rw [hsum]
  exact hlt

/-- C10: in every banded table of the repository the ROWBACKGROUNDS
(banding) commands cover only the data rows, from row index 1 to at most
the last row, never the header row at index 0, and the header row's
background is set by an explicit BACKGROUND rule of that table. -/
theorem claim10_banding_excludes_header : allBandsExcludeHeader := by
  unfold allBandsExcludeHeader bandsExcludeHeader
  decide

theorem sum_getD (cws : List (Option ℚ)) (s : ℚ) :
    (cws.map (fun c => c.getD s)).sum = fixedSum cws + (autoCount cws : ℚ) * s := by
  induction cws with
  | nil => simp [fixedSum, autoCount]
  | cons c rest ih =>
    cases c with
    | none =>
      have h1 : fixedSum (none :: rest) = fixedSum rest := by simp [fixedSum]
      have h2 : autoCount (none :: rest) = autoCount rest + 1 := by
        simp [autoCount, List.countP_cons]
      simp only [List.map_cons, List.sum_cons, Option.getD_none, h1, h2, ih]
      push_cast
      ring
    | some v =>
      have h1 : fixedSum (some v :: rest) = v + fixedSum rest := by
        simp [fixedSum, List.filterMap_cons]
      have h2 : autoCount (some v :: rest) = autoCount rest := by
        simp [autoCount, List.countP_cons]
      simp only [List.map_cons, List.sum_cons, Option.getD_some, h1, h2, ih]
      ring

/-- C4: column-width resolution fails with LayoutError exactly when the sum
of the fixed column widths exceeds the available width; when it does not
exceed it, resolution returns widths and raises no LayoutError; and
rendering a Document containing a table whose fixed widths exceed the
content width raises LayoutError. -/
theorem claim4_layout_error_iff (avail : ℚ) (cws : List (Option ℚ)) :
    (resolveColWidths avail cws = .error .layout ↔ avail < fixedSum cws) ∧
    (fixedSum cws ≤ avail → ∃ ws, resolveColWidths avail cws = .ok ws) ∧
    (∀ (g : PageGeom) (reg : Registry) (t : Table),
      t.colWidths = cws → contentWidth g < fixedSum cws →
      render { geom := g, registry := reg, blocks := [ContentBlock.table t] } =
        .error .layout) := by
  refine ⟨?_, ?_, ?_⟩
  · rw [resolveColWidths]
    by_cases h : avail < fixedSum cws
    · simp [h]
    · simp [h]
  · intro h
    rw [resolveColWidths, if_neg (not_lt.mpr h)]
    exact ⟨_, rfl⟩
  · intro g reg t ht hlt
    have hcw : resolveColWidths (contentWidth g) t.colWidths = .error .layout := by
      rw [ht, resolveColWidths, if_pos hlt]
    simp [render, renderAux, stepBlock, blockExtent, tableHeight, tableRowHeights,
      hcw, Except.map]

/-- Witness for C4 at the corrective-action log page geometry and the
register table's fixed column widths. -/
theorem claim4_witness :
    contentWidth carLogGeom < fixedSum carColWidths ∧
    render { geom := carLogGeom, registry := [], blocks := [ContentBlock.table carWidthsTable] } =
      .error .layout := by
  have h : contentWidth carLogGeom < fixedSum carColWidths := by
    norm_num [contentWidth, carLogGeom, a4WidthPts, mmUnit, fixedSum, carColWidths,
      List.filterMap_cons]
  exact ⟨h, (claim4_layout_error_iff (contentWidth carLogGeom) carColWidths).2.2
    carLogGeom [] carWidthsTable rfl h⟩

/-- C5 (amended): when resolution succeeds, the resolved widths of a table
with at least one auto column sum exactly to the available content width
(no rounding drift: the arithmetic is exact); a table whose columns all
have fixed widths keeps them as given, so its resolved widths sum to the
sum of the fixed widths, which can be less than the available width (see
the counterexample for the claim as stated). -/
theorem claim5_width_sum (avail : ℚ) (cws : List (Option ℚ)) (ws : List ℚ)
    (hok : resolveColWidths avail cws = .ok ws) :
    (0 < autoCount cws → ws.sum = avail) ∧
    (autoCount cws = 0 → ws = cws.map (fun c => c.getD 0)) := by
  rw [resolveColWidths] at hok
  by_cases h : avail < fixedSum cws
  · rw [if_pos h] at hok
    exact absurd hok (by simp)
  · rw [if_neg h] at hok
    injection hok with hok
    subst hok
    constructor
    · intro hac
      rw [sum_getD]
      have hne : (autoCount cws : ℚ) ≠ 0 :=
        Nat.cast_ne_zero.mpr (Nat.pos_iff_ne_zero.mp hac)
      rw [mul_comm, div_mul_cancel₀ _ hne]
      ring
    · intro hac
      have hall := List.countP_eq_zero.mp hac
      apply List.map_congr_left
      intro c hc
      cases c with
      | none =>
        have := hall none hc
        simp at this
      | some v => rfl

/-- C5 as stated is false on the repository's own data: the audit report's
findings summary table (create_audit_report.py line 98) has all-fixed
column widths 150, 100, 200, which resolution honors as given; they sum to
450, more than one layout unit short of the 64800/127 (about 510.2) units
of available content width. -/
theorem claim5_counterexample :
    resolveColWidths auditContentWidth findingsColWidths = .ok [150, 100, 200] ∧
    ([150, 100, 200] : List ℚ).sum + 1 < auditContentWidth := by
  have hs : fixedSum findingsColWidths = 450 := by
    norm_num [fixedSum, findingsColWidths, List.filterMap_cons]
  have hcw : auditContentWidth = 64800 / 127 := by
    norm_num [auditContentWidth, a4WidthPts, mmUnit]
  constructor
  · rw [resolveColWidths, if_neg]
    · simp [findingsColWidths]
    · rw [hs, hcw]
      norm_num
  · rw [hcw]
    norm_num

/-- Witness for C5 (amended): one fixed column of 100 and two auto columns
at available width 500 resolve to 100, 200, 200, which sum to 500
exactly. -/
theorem claim5_witness :
    resolveColWidths 500 [some 100, none, none] = .ok [100, 200, 200] ∧
    0 < autoCount [some (100 : ℚ), none, none] ∧
    ([100, 200, 200] : List ℚ).sum = 500 := by
  have hok : resolveColWidths 500 [some (100 : ℚ), none, none] = .ok [100, 200, 200] := by
    rw [resolveColWidths, if_neg]
    · norm_num [fixedSum, autoCount, List.filterMap_cons, List.countP_cons]
    · norm_num [fixedSum, List.filterMap_cons]
  have hac : 0 < autoCount [some (100 : ℚ), none, none] := by
    norm_num [autoCount, List.countP_cons]
  exact ⟨hok, hac, (claim5_width_sum 500 [some 100, none, none] [100, 200, 200] hok).1 hac⟩

theorem takeFit_append {α : Type} (cap : ℚ) (l : List (α × ℚ)) :
    (takeFit cap l).1 ++ (takeFit cap l).2 = l := by
  induction l generalizing cap with
  | nil => rfl
  | cons p rest ih =>
    obtain ⟨a, h⟩ := p
    by_cases hc : h ≤ cap
    · simp only [takeFit, if_pos hc, List.cons_append]
      rw [ih]
    · simp [takeFit, if_neg hc]

theorem takeFit_fst_sum {α : Type} (cap : ℚ) (l : List (α × ℚ)) (h0 : 0 ≤ cap) :
    ((takeFit cap l).1.map Prod.snd).sum ≤ cap := by
  induction l generalizing cap with
  | nil => simpa [takeFit] using h0
  | cons p rest ih =>
    obtain ⟨a, h⟩ := p
    by_cases hc : h ≤ cap
    · simp only [takeFit, if_pos hc, List.map_cons, List.sum_cons]
      have := ih (cap - h) (sub_nonneg.mpr hc)
      linarith
    · simpa [takeFit, if_neg hc] using h0

theorem takeFit_ne_nil {α : Type} (cap : ℚ) (a : α) (h : ℚ) (rest : List (α × ℚ))
    (hc : h ≤ cap) : (takeFit cap ((a, h) :: rest)).1 ≠ [] := by
  simp [takeFit, if_pos hc]

theorem splitRest_ok {α : Type} (cap : ℚ) (h0 : 0 ≤ cap) :
    ∀ (fuel : ℕ) (l : List (α × ℚ)), l.length ≤ fuel →
    (∀ p ∈ l, p.2 ≤ cap) →
    ∃ parts, splitRest cap fuel l = .ok parts ∧
      parts.flatten = l ∧
      ∀ pt ∈ parts, (pt.map Prod.snd).sum ≤ cap ∧ pt ≠ [] := by
  intro fuel
  induction fuel with
  | zero =>
    intro l hl _
    have : l = [] := List.length_eq_zero.mp (Nat.le_zero.mp hl)
    subst this
    exact ⟨[], rfl, rfl, by simp⟩
  | succ f ih =>
    intro l hl hfit
    cases l with
    | nil => exact ⟨[], rfl, rfl, by simp⟩
    | cons p rest =>
      obtain ⟨a, h⟩ := p
      have hc : h ≤ cap := hfit (a, h) (List.mem_cons_self _ _)
      have htk := takeFit_ne_nil cap a h rest hc
      have happ := takeFit_append cap ((a, h) :: rest)
      rcases hpr : takeFit cap ((a, h) :: rest) with ⟨tk, rm⟩
      rw [hpr] at happ htk
      simp only at happ htk
      have hlen : rm.length ≤ f := by
        have hlsum : tk.length + rm.length = rest.length + 1 := by
          rw [← List.length_append, happ]
          simp
        have htk1 : 1 ≤ tk.length := by
          cases tk with
          | nil => exact absurd rfl htk
          | cons x xs => simp
        have hr : rest.length + 1 ≤ f + 1 := by simpa using hl
        omega
      have hfit2 : ∀ q ∈ rm, q.2 ≤ cap := by
        intro q hq
        apply hfit
        rw [← happ]
        exact List.mem_append_right _ hq
      obtain ⟨parts, hp1, hp2, hp3⟩ := ih rm hlen hfit2
      refine ⟨tk :: parts, ?_, ?_, ?_⟩
      · simp only [splitRest, hpr]
        rw [if_neg (by simpa [List.isEmpty_iff] using htk)]
        rw [hp1]
        rfl
      · simp only [List.flatten_cons, hp2, happ]
      · intro pt hpt
        rcases List.mem_cons.mp hpt with h1 | h1
        · subst h1
          constructor
          · have := takeFit_fst_sum cap ((a, h) :: rest) h0
            rwa [hpr] at this
          · exact htk
        · exact hp3 pt h1

theorem map_fst_height_sum {α : Type} (f : α → ℚ) (ch : List (α × ℚ))
    (hch : ∀ p ∈ ch, p.2 = f p.1) :
    ((ch.map Prod.fst).map f).sum = (ch.map Prod.snd).sum := by
  induction ch with
  | nil => rfl
  | cons p rest ih =>
    simp only [List.map_cons, List.sum_cons]
    rw [← hch p (List.mem_cons_self _ _),
      ih (fun q hq => hch q (List.mem_cons_of_mem _ hq))]

theorem tableHeight_mk (reg : Registry) (avail : ℚ) (t : Table) (ws : List ℚ)
    (sty : Style) (rows2 : List (List Cell))
    (hw : resolveColWidths avail t.colWidths = .ok ws)
    (hs : resolveStyle reg t.styleRef = .ok sty) :
    tableHeight reg avail { t with rows := rows2 } =
      .ok ((rows2.map (rowHeight sty t.rowPadding ws)).sum) := by
  simp [tableHeight, tableRowHeights, hw, hs, Except.map]

/-- C3 (amended): for a splittable Table whose total height exceeds one
page's content height C, provided every row fits a page (together with the
re-emitted header on continuation pages when a header-repeat row is
declared), splitting produces parts whose data rows partition the original
rows exactly — no row duplicated or dropped, order preserved — every
part's height is at most C, and when the table declares a header-repeat
row every continuation part re-emits the header row at its top.  Without
the row-fit proviso the claim as stated fails: a single row taller than C
makes splitting fail with UnsplittableRowError (see the
counterexample). -/
theorem claim3_split_law (reg : Registry) (avail C : ℚ) (t : Table) (ws : List ℚ)
    (sty : Style) (H : ℚ)
    (hC : 0 ≤ C)
    (hw : resolveColWidths avail t.colWidths = .ok ws)
    (hs : resolveStyle reg t.styleRef = .ok sty)
    (_hsp : t.splittable = true)
    (_hH : tableHeight reg avail t = .ok H)
    (_hbig : C < H)
    (hfit : rowsFitB sty t.rowPadding ws t.headerRepeat C t.rows = true) :
    ∃ parts, splitTable reg avail C C t = .ok parts ∧
      dataRows t.headerRepeat parts = t.rows ∧
      (∀ p ∈ parts, ∃ hp, tableHeight reg avail p = .ok hp ∧ hp ≤ C) ∧
      (t.headerRepeat = true → ∀ hd body, t.rows = hd :: body →
        ∀ p ∈ parts.drop 1, ∃ rs, p.rows = hd :: rs) := by
  cases ht : t.headerRepeat with
  | false =>
    rw [ht] at hfit
    have hfitP : ∀ r ∈ t.rows, rowHeight sty t.rowPadding ws r ≤ C := by
      simpa [rowsFitB] using hfit
    rcases hpr : takeFit C (t.rows.map (fun r => (r, rowHeight sty t.rowPadding ws r)))
      with ⟨tk, rm⟩
    have happ : tk ++ rm = t.rows.map (fun r => (r, rowHeight sty t.rowPadding ws r)) := by
      have := takeFit_append C (t.rows.map (fun r => (r, rowHeight sty t.rowPadding ws r)))
      rwa [hpr] at this
    have hmem_le : ∀ q ∈ t.rows.map (fun r => (r, rowHeight sty t.rowPadding ws r)),
        q.2 ≤ C := by
      intro q hq
      obtain ⟨r, hr, rfl⟩ := List.mem_map.mp hq
      exact hfitP r hr
    have hrm_mem : ∀ q ∈ rm, q ∈ t.rows.map (fun r => (r, rowHeight sty t.rowPadding ws r)) := by
      intro q hq
      rw [← happ]
      exact List.mem_append_right _ hq
    have htk_mem : ∀ q ∈ tk, q ∈ t.rows.map (fun r => (r, rowHeight sty t.rowPadding ws r)) := by
      intro q hq
      rw [← happ]
      exact List.mem_append_left _ hq
    have hsnd : ∀ q ∈ t.rows.map (fun r => (r, rowHeight sty t.rowPadding ws r)),
        q.2 = rowHeight sty t.rowPadding ws q.1 := by
      intro q hq
      obtain ⟨r, hr, rfl⟩ := List.mem_map.mp hq
      rfl
    obtain ⟨parts0, hp1, hp2, hp3⟩ :=
      splitRest_ok C hC rm.length rm le_rfl (fun q hq => hmem_le q (hrm_mem q hq))
    refine ⟨{ t with rows := tk.map Prod.fst } ::
      parts0.map (fun ch => { t with rows := ch.map Prod.fst }), ?_, ?_, ?_, ?_⟩
    · simp only [splitTable, hw, hs, ht, Bool.false_eq_true, if_false, hpr, hp1]
      rfl
    · simp only [dataRows, List.map_map, Function.comp_def, Bool.false_eq_true, if_false]
      have hjm : (parts0.map (fun ch => List.map Prod.fst ch)).flatten =
          (parts0.flatten).map Prod.fst := (List.map_flatten _ _).symm
      rw [hjm, hp2]
      have hfin : List.map Prod.fst (tk ++ rm) = t.rows := by
        rw [happ, List.map_map]
        simp [Function.comp_def]
      rw [List.map_append] at hfin
      exact hfin
    · intro p hp
      rcases List.mem_cons.mp hp with h1 | h1
      · subst h1
        refine ⟨_, tableHeight_mk reg avail t ws sty _ hw hs, ?_⟩
        rw [map_fst_height_sum (rowHeight sty t.rowPadding ws) tk
          (fun q hq => hsnd q (htk_mem q hq))]
        have := takeFit_fst_sum C (t.rows.map (fun r => (r, rowHeight sty t.rowPadding ws r))) hC
        rwa [hpr] at this
      · obtain ⟨ch, hch, rfl⟩ := List.mem_map.mp h1
        refine ⟨_, tableHeight_mk reg avail t ws sty _ hw hs, ?_⟩
        have hchmem : ∀ q ∈ ch, q ∈ t.rows.map (fun r => (r, rowHeight sty t.rowPadding ws r)) := by
          intro q hq
          apply hrm_mem
          rw [← hp2]
          exact List.mem_flatten.mpr ⟨ch, hch, hq⟩
        rw [map_fst_height_sum (rowHeight sty t.rowPadding ws) ch
          (fun q hq => hsnd q (hchmem q hq))]
        exact (hp3 ch hch).1
    · intro h
      exact Bool.noConfusion h
  | true =>
    rw [ht] at hfit
    cases hrows : t.rows with
    | nil =>
      refine ⟨[{ t with rows := [] }], ?_, ?_, ?_, ?_⟩
      · simp only [splitTable, hw, hs, ht, if_true, hrows, List.map_nil]
      · simp [dataRows, hrows]
      · intro p hp
        rcases List.mem_cons.mp hp with h1 | h1
        · subst h1
          refine ⟨_, tableHeight_mk reg avail t ws sty _ hw hs, ?_⟩
          simpa using hC
        · simp at h1
      · intro _ hd body hb
        exact absurd hb (by simp)
    | cons hd body =>
      rw [hrows] at hfit
      have hfit12 : rowHeight sty t.rowPadding ws hd ≤ C ∧
          ∀ r ∈ body,
            rowHeight sty t.rowPadding ws hd + rowHeight sty t.rowPadding ws r ≤ C := by
        simpa [rowsFitB] using hfit
      have hhd := hfit12.1
      have hbody := hfit12.2
      have hcap0 : 0 ≤ C - rowHeight sty t.rowPadding ws hd := sub_nonneg.mpr hhd
      rcases hpr : takeFit (C - rowHeight sty t.rowPadding ws hd)
          (body.map (fun r => (r, rowHeight sty t.rowPadding ws r))) with ⟨tk, rm⟩
      have happ : tk ++ rm = body.map (fun r => (r, rowHeight sty t.rowPadding ws r)) := by
        have := takeFit_append (C - rowHeight sty t.rowPadding ws hd)
          (body.map (fun r => (r, rowHeight sty t.rowPadding ws r)))
        rwa [hpr] at this
      have hsnd : ∀ q ∈ body.map (fun r => (r, rowHeight sty t.rowPadding ws r)),
          q.2 = rowHeight sty t.rowPadding ws q.1 := by
        intro q hq
        obtain ⟨r, hr, rfl⟩ := List.mem_map.mp hq
        rfl
      have hmem_le : ∀ q ∈ body.map (fun r => (r, rowHeight sty t.rowPadding ws r)),
          q.2 ≤ C - rowHeight sty t.rowPadding ws hd := by
        intro q hq
        obtain ⟨r, hr, rfl⟩ := List.mem_map.mp hq
        have := hbody r hr
        simp only
        linarith
      have hrm_mem : ∀ q ∈ rm, q ∈ body.map (fun r => (r, rowHeight sty t.rowPadding ws r)) := by
        intro q hq
        rw [← happ]
        exact List.mem_append_right _ hq
      have htk_mem : ∀ q ∈ tk, q ∈ body.map (fun r => (r, rowHeight sty t.rowPadding ws r)) := by
        intro q hq
        rw [← happ]
        exact List.mem_append_left _ hq
      obtain ⟨parts0, hp1, hp2, hp3⟩ :=
        splitRest_ok (C - rowHeight sty t.rowPadding ws hd) hcap0 rm.length rm le_rfl
          (fun q hq => hmem_le q (hrm_mem q hq))
      refine ⟨{ t with rows := hd :: tk.map Prod.fst } ::
        parts0.map (fun ch => { t with rows := hd :: ch.map Prod.fst }), ?_, ?_, ?_, ?_⟩
      · simp only [splitTable, hw, hs, ht, if_true, hrows, List.map_cons, hpr, hp1]
        rfl
      · simp only [dataRows, List.map_map, Function.comp_def, if_true, List.drop_one,
          List.tail_cons]
        have hjm : (parts0.map (fun ch => List.map Prod.fst ch)).flatten =
            (parts0.flatten).map Prod.fst := (List.map_flatten _ _).symm
        rw [hjm, hp2, List.cons_append]
        have hfin : List.map Prod.fst (tk ++ rm) = body := by
          rw [happ, List.map_map]
          simp [Function.comp_def]
        rw [List.map_append] at hfin
        rw [hfin]
      · intro p hp
        rcases List.mem_cons.mp hp with h1 | h1
        · subst h1
          refine ⟨_, tableHeight_mk reg avail t ws sty _ hw hs, ?_⟩
          simp only [List.map_cons, List.sum_cons]
          rw [map_fst_height_sum (rowHeight sty t.rowPadding ws) tk
            (fun q hq => hsnd q (htk_mem q hq))]
          have := takeFit_fst_sum (C - rowHeight sty t.rowPadding ws hd)
            (body.map (fun r => (r, rowHeight sty t.rowPadding ws r))) hcap0
          rw [hpr] at this
          linarith
        · obtain ⟨ch, hch, rfl⟩ := List.mem_map.mp h1
          refine ⟨_, tableHeight_mk reg avail t ws sty _ hw hs, ?_⟩
          simp only [List.map_cons, List.sum_cons]
          have hchmem : ∀ q ∈ ch,
              q ∈ body.map (fun r => (r, rowHeight sty t.rowPadding ws r)) := by
            intro q hq
            apply hrm_mem
            rw [← hp2]
            exact List.mem_flatten.mpr ⟨ch, hch, hq⟩
          rw [map_fst_height_sum (rowHeight sty t.rowPadding ws) ch
            (fun q hq => hsnd q (hchmem q hq))]
          have := (hp3 ch hch).1
          linarith
      · intro _ hd2 body2 hb p hp
        obtain ⟨ch, hch, rfl⟩ := List.mem_map.mp (by simpa using hp)
        refine ⟨ch.map Prod.fst, ?_⟩
        injection hb with hb1 hb2
        dsimp only
        rw [hb1]

theorem textWords_nil : textWords [] = [] := rfl

theorem paragraphHeight_nil (sty : Style) (avail : ℚ) :
    paragraphHeight sty avail [] = lineHeight sty := by
  simp [paragraphHeight, flowLines, textWords_nil]

theorem lineHeight_sty0 : lineHeight sty0 = 12 := by
  norm_num [lineHeight, sty0]

theorem rowHeight_sty0 (w pad : ℚ) : rowHeight sty0 pad [w] [⟨[]⟩] = 12 + pad := by
  simp [rowHeight, cellHeight, paragraphHeight_nil, lineHeight_sty0]

theorem resolveStyle_reg0 : resolveStyle reg0 "body" = .ok sty0 := rfl

theorem resolveColWidths_one_auto : resolveColWidths 400 [(none : Option ℚ)] = .ok [400] := by
  rw [resolveColWidths, if_neg]
  · norm_num [fixedSum, autoCount, List.countP_cons]
  · norm_num [fixedSum]

/-- C3 as stated is false on the model: the splittable one-row table
`tOneRow` has total height 12, more than the content height 10, yet
splitting produces no parts — it fails with UnsplittableRowError because
the single row is taller than one full page's content area. -/
theorem claim3_counterexample :
    tOneRow.splittable = true ∧
    tableHeight reg0 400 tOneRow = .ok 12 ∧ (10 : ℚ) < 12 ∧
    splitTable reg0 400 10 10 tOneRow = .error .unsplittableRow := by
  have hrh : rowHeight sty0 0 [400] [⟨[]⟩] = 12 := by
    rw [rowHeight_sty0]
    norm_num
  refine ⟨rfl, ?_, by norm_num, ?_⟩
  · simp [tableHeight, tableRowHeights, tOneRow, resolveColWidths_one_auto,
      resolveStyle_reg0, hrh, Except.map]
  · norm_num [splitTable, tOneRow, resolveColWidths_one_auto, resolveStyle_reg0,
      hrh, takeFit, splitRest, Except.map]

/-- Witness for C3 (amended) at the splittable two-row table `tTwoRows`
(total height 24) on pages of content height 20: the split produces two
one-row parts partitioning the rows, each of height 12 at most 20. -/
theorem claim3_witness :
    tTwoRows.splittable = true ∧
    ∃ parts, splitTable reg0 400 20 20 tTwoRows = .ok parts ∧
      dataRows tTwoRows.headerRepeat parts = tTwoRows.rows ∧
      (∀ p ∈ parts, ∃ hp, tableHeight reg0 400 p = .ok hp ∧ hp ≤ 20) ∧
      (tTwoRows.headerRepeat = true → ∀ hd body, tTwoRows.rows = hd :: body →
        ∀ p ∈ parts.drop 1, ∃ rs, p.rows = hd :: rs) := by
  have hrh : rowHeight sty0 0 [400] [⟨[]⟩] = 12 := by
    rw [rowHeight_sty0]
    norm_num
  have hH : tableHeight reg0 400 tTwoRows = .ok 24 := by
    simp [tableHeight, tableRowHeights, tTwoRows, resolveColWidths_one_auto,
      resolveStyle_reg0, hrh, Except.map]
    norm_num
  have hfit : rowsFitB sty0 tTwoRows.rowPadding [400] tTwoRows.headerRepeat 20
      tTwoRows.rows = true := by
    norm_num [rowsFitB, tTwoRows, hrh]
  exact ⟨rfl, claim3_split_law reg0 400 20 tTwoRows [400] sty0 24 (by norm_num)
    resolveColWidths_one_auto resolveStyle_reg0 rfl hH (by norm_num) hfit⟩

theorem resolveAux_ne_overflow (reg : Registry) (fuel : ℕ) (path : List String)
    (name : String) : resolveAux reg fuel path name ≠ .error .contentOverflow := by
  intro h
  rcases resolveAux_error_cases reg fuel path name _ h with h1 | h1 <;> simp at h1

theorem resolveColWidths_ne_overflow (avail : ℚ) (cws : List (Option ℚ)) :
    resolveColWidths avail cws ≠ .error .contentOverflow := by
  rw [resolveColWidths]
  by_cases h : avail < fixedSum cws <;> simp [h]

theorem tableRowHeights_ne_overflow (reg : Registry) (avail : ℚ) (t : Table) :
    tableRowHeights reg avail t ≠ .error .contentOverflow := by
  rw [tableRowHeights]
  cases hcw : resolveColWidths avail t.colWidths with
  | error e =>
    intro h
    injection h with h
    exact resolveColWidths_ne_overflow avail t.colWidths (hcw.trans (by rw [h]))
  | ok ws =>
    cases hs : resolveStyle reg t.styleRef with
    | error e =>
      intro h
      injection h with h
      exact resolveAux_ne_overflow reg _ [] t.styleRef (hs.trans (by rw [h]))
    | ok sty => simp

theorem tableHeight_ne_overflow (reg : Registry) (avail : ℚ) (t : Table) :
    tableHeight reg avail t ≠ .error .contentOverflow := by
  rw [tableHeight]
  cases h : tableRowHeights reg avail t with
  | error e =>
    intro hh
    simp only [Except.map] at hh
    injection hh with hh
    exact tableRowHeights_ne_overflow reg avail t (h.trans (by rw [hh]))
  | ok l => simp [Except.map]

theorem blockExtent_ne_overflow (reg : Registry) (avail : ℚ) (b : ContentBlock) :
    blockExtent reg avail b ≠ .error .contentOverflow := by
  cases b with
  | pageBreak => simp [blockExtent]
  | spacer h => simp [blockExtent]
  | para rt sref =>
    rw [blockExtent]
    cases hs : resolveStyle reg sref with
    | error e =>
      intro h
      injection h with h
      exact resolveAux_ne_overflow reg _ [] sref (hs.trans (by rw [h]))
    | ok sty => simp
  | table t =>
    rw [blockExtent]
    cases hth : tableHeight reg avail t with
    | error e =>
      intro h
      injection h with h
      exact tableHeight_ne_overflow reg avail t (hth.trans (by rw [h]))
    | ok hh =>
      cases hs : resolveStyle reg t.styleRef with
      | error e =>
        intro h
        injection h with h
        exact resolveAux_ne_overflow reg _ [] t.styleRef (hs.trans (by rw [h]))
      | ok sty => simp

theorem splitRest_ne_overflow {α : Type} (cap : ℚ) (fuel : ℕ) (l : List (α × ℚ)) :
    splitRest cap fuel l ≠ .error .contentOverflow := by
  induction fuel generalizing l with
  | zero => cases l <;> simp [splitRest]
  | succ f ih =>
    cases l with
    | nil => simp [splitRest]
    | cons p rest =>
      rw [splitRest]
      by_cases he : (takeFit cap (p :: rest)).1.isEmpty
      · simp [he]
      · simp only [he, if_false, Bool.false_eq_true]
        cases hsr : splitRest cap f (takeFit cap (p :: rest)).2 with
        | error e =>
          intro h
          simp only [hsr, Except.map] at h
          injection h with h
          exact ih _ (hsr.trans (by rw [h]))
        | ok ps => simp [hsr, Except.map]

theorem splitTable_ne_overflow (reg : Registry) (avail f c : ℚ) (t : Table) :
    splitTable reg avail f c t ≠ .error .contentOverflow := by
  rw [splitTable]
  cases hcw : resolveColWidths avail t.colWidths with
  | error e =>
    intro h
    injection h with h
    exact resolveColWidths_ne_overflow avail t.colWidths (hcw.trans (by rw [h]))
  | ok ws =>
    cases hs : resolveStyle reg t.styleRef with
    | error e =>
      intro h
      injection h with h
      exact resolveAux_ne_overflow reg _ [] t.styleRef (hs.trans (by rw [h]))
    | ok sty =>
      by_cases hr : t.headerRepeat
      · simp only [hr, if_true]
        cases hrows : t.rows.map (fun r => (r, rowHeight sty t.rowPadding ws r)) with
        | nil => simp
        | cons hd body =>
          cases hsr : splitRest (c - hd.2)
              (takeFit (f - hd.2) body).2.length (takeFit (f - hd.2) body).2 with
          | error e =>
            intro h
            simp only [hsr, Except.map] at h
            injection h with h
            exact splitRest_ne_overflow _ _ _ (hsr.trans (by rw [h]))
          | ok ps => simp [hsr, Except.map]
      · simp only [hr, if_false, Bool.false_eq_true]
        cases hsr : splitRest c
            (takeFit f (t.rows.map (fun r => (r, rowHeight sty t.rowPadding ws r)))).2.length
            (takeFit f (t.rows.map (fun r => (r, rowHeight sty t.rowPadding ws r)))).2 with
        | error e =>
          intro h
          simp only [hsr, Except.map] at h
          injection h with h
          exact splitRest_ne_overflow _ _ _ (hsr.trans (by rw [h]))
        | ok ps => simp [hsr, Except.map]

theorem stepBlock_no_overflow (reg : Registry) (W C : ℚ) (st : SchedState)
    (b : ContentBlock)
    (hfit : ∀ h adv, blockExtent reg W b = .ok (h, adv) → h ≤ C) :
    stepBlock reg W C st b ≠ .error .contentOverflow := by
  cases b with
  | pageBreak => simp [stepBlock]
  | spacer hs =>
    rw [stepBlock]
    case x => simp
    cases hbe : blockExtent reg W (.spacer hs) with
    | error e =>
      intro h
      injection h with h
      exact blockExtent_ne_overflow reg W _ (hbe.trans (by rw [h]))
    | ok pr =>
      obtain ⟨h, adv⟩ := pr
      by_cases hc : h ≤ st.rem
      · simp [hc]
      · simp only [hc, if_false, splittableTableOf]
        rw [if_pos (hfit h adv hbe)]
        simp
  | para rt sref =>
    rw [stepBlock]
    case x => simp
    cases hbe : blockExtent reg W (.para rt sref) with
    | error e =>
      intro h
      injection h with h
      exact blockExtent_ne_overflow reg W _ (hbe.trans (by rw [h]))
    | ok pr =>
      obtain ⟨h, adv⟩ := pr
      by_cases hc : h ≤ st.rem
      · simp [hc]
      · simp only [hc, if_false, splittableTableOf]
        rw [if_pos (hfit h adv hbe)]
        simp
  | table t =>
    rw [stepBlock]
    case x => simp
    cases hbe : blockExtent reg W (.table t) with
    | error e =>
      intro h
      injection h with h
      exact blockExtent_ne_overflow reg W _ (hbe.trans (by rw [h]))
    | ok pr =>
      obtain ⟨h, adv⟩ := pr
      by_cases hc : h ≤ st.rem
      · simp [hc]
      · simp only [hc, if_false, splittableTableOf]
        by_cases hsp : t.splittable
        · simp only [hsp, if_true]
          cases hspl : splitTable reg W st.rem C t with
          | error e =>
            intro h2
            simp only [hspl] at h2
            injection h2 with h2
            exact splitTable_ne_overflow reg W st.rem C t (hspl.trans (by rw [h2]))
          | ok ps =>
            cases ps with
            | nil => simp [hspl]
            | cons p rest => simp [hspl]
        · simp only [hsp, if_false, Bool.false_eq_true]
          rw [if_pos (hfit h adv hbe)]
          simp

theorem renderAux_no_overflow (reg : Registry) (W C : ℚ) :
    ∀ (bs : List ContentBlock) (st : SchedState),
    (∀ b ∈ bs, ∀ h adv, blockExtent reg W b = .ok (h, adv) → h ≤ C) →
    renderAux reg W C st bs ≠ .error .contentOverflow := by
  intro bs
  induction bs with
  | nil => intro st _; simp [renderAux]
  | cons b rest ih =>
    intro st hfit h
    rw [renderAux] at h
    cases hsb : stepBlock reg W C st b with
    | error e =>
      rw [hsb] at h
      injection h with h
      exact stepBlock_no_overflow reg W C st b
        (hfit b (List.mem_cons_self _ _)) (hsb.trans (by rw [h]))
    | ok st2 =>
      rw [hsb] at h
      exact ih st2 (fun b2 hb2 => hfit b2 (List.mem_cons_of_mem _ hb2)) h

/-- C1: for a Document in which every block's individually computed
required height fits within one page's content area, render never fails
with ContentOverflowError — the ContentOverflowError branch of the Page
Flow Scheduler is unreachable under that precondition. -/
theorem claim1_no_overflow (d : Document)
    (hfit : ∀ b ∈ d.blocks, ∀ h adv,
      blockExtent d.registry (contentWidth d.geom) b = .ok (h, adv) →
      h ≤ contentHeight d.geom) :
    render d ≠ .error .contentOverflow :=
  renderAux_no_overflow d.registry (contentWidth d.geom) (contentHeight d.geom)
    d.blocks ⟨[], [], contentHeight d.geom⟩ hfit

theorem resolveColWidths_single_auto (avail : ℚ) (h0 : 0 ≤ avail) :
    resolveColWidths avail [(none : Option ℚ)] = .ok [avail] := by
  rw [resolveColWidths, if_neg]
  · simp [fixedSum, autoCount, List.countP_cons]
  · simp only [fixedSum, List.filterMap_nil, List.filterMap_cons]
    simp only [id]
    simp only [List.sum_nil]
    exact not_lt.mpr h0

theorem tableHeight_tTwoRows (avail : ℚ) (h0 : 0 ≤ avail) :
    tableHeight reg0 avail tTwoRows = .ok 24 := by
  simp [tableHeight, tableRowHeights, tTwoRows, resolveColWidths_single_auto avail h0,
    resolveStyle_reg0, rowHeight_sty0, Except.map]
  norm_num

theorem blockExtent_para_nil (avail : ℚ) :
    blockExtent reg0 avail (.para [] "body") = .ok (12, 12) := by
  simp only [blockExtent, resolveStyle_reg0, paragraphHeight_nil, lineHeight_sty0]
  norm_num [sty0]

/-- Witness for C1 at the concrete document `docFits`, whose spacer,
paragraph and two-row table each individually fit the 80-unit content
height. -/
theorem claim1_witness : render docFits ≠ .error .contentOverflow := by
  apply claim1_no_overflow
  intro b hb h adv hba
  have hch : contentHeight docFits.geom = 80 := by
    norm_num [contentHeight, docFits, smallGeom]
  have hcw : contentWidth docFits.geom = 80 := by
    norm_num [contentWidth, docFits, smallGeom]
  rw [hch]
  rw [show docFits.registry = reg0 from rfl, hcw] at hba
  fin_cases hb
  · rw [show blockExtent reg0 80 (.spacer 5) = .ok (5, 5) from rfl] at hba
    simp only [Except.ok.injEq, Prod.mk.injEq] at hba
    rw [← hba.1]
    norm_num
  · rw [blockExtent_para_nil 80] at hba
    simp only [Except.ok.injEq, Prod.mk.injEq] at hba
    rw [← hba.1]
    norm_num
  · have hbe : blockExtent reg0 80 (.table tTwoRows) = .ok (24, 24) := by
      simp only [blockExtent, show tTwoRows.styleRef = "body" from rfl, resolveStyle_reg0,
        tableHeight_tTwoRows 80 (by norm_num)]
      norm_num [sty0]
    rw [hbe] at hba
    simp only [Except.ok.injEq, Prod.mk.injEq] at hba
    rw [← hba.1]
    norm_num

/-- C2: the Page Flow Scheduler handles PageBreak by unconditionally
finalizing the current page — even if only partially filled — and starting
a fresh page with the full content height remaining; consequently a
Document of a small paragraph, a PageBreak and a second small paragraph
renders to exactly two pages with one paragraph each, regardless of the
space remaining on page one. -/
theorem claim2_pagebreak_semantics :
    (∀ (reg : Registry) (W C : ℚ) (st : SchedState),
      stepBlock reg W C st .pageBreak = .ok ⟨st.pages ++ [st.cur], [], C⟩) ∧
    (∀ (d : Document) (rt1 : List Run) (s1 : String) (rt2 : List Run) (s2 : String)
      (h1 a1 h2 a2 : ℚ),
      d.blocks = [.para rt1 s1, .pageBreak, .para rt2 s2] →
      blockExtent d.registry (contentWidth d.geom) (.para rt1 s1) = .ok (h1, a1) →
      h1 ≤ contentHeight d.geom →
      blockExtent d.registry (contentWidth d.geom) (.para rt2 s2) = .ok (h2, a2) →
      h2 ≤ contentHeight d.geom →
      render d = .ok [[.para rt1 s1], [.para rt2 s2]]) := by
  constructor
  · intro reg W C st
    rfl
  · intro d rt1 s1 rt2 s2 h1 a1 h2 a2 hb he1 hle1 he2 hle2
    have hs1 : stepBlock d.registry (contentWidth d.geom) (contentHeight d.geom)
        ⟨[], [], contentHeight d.geom⟩ (.para rt1 s1) =
        .ok ⟨[], [.para rt1 s1], contentHeight d.geom - a1⟩ := by
      rw [stepBlock]
      case x => simp
      rw [he1]
      dsimp only
      rw [if_pos hle1]
      simp
    have hs2 : stepBlock d.registry (contentWidth d.geom) (contentHeight d.geom)
        ⟨[], [.para rt1 s1], contentHeight d.geom - a1⟩ .pageBreak =
        .ok ⟨[[.para rt1 s1]], [], contentHeight d.geom⟩ := rfl
    have hs3 : stepBlock d.registry (contentWidth d.geom) (contentHeight d.geom)
        ⟨[[.para rt1 s1]], [], contentHeight d.geom⟩ (.para rt2 s2) =
        .ok ⟨[[.para rt1 s1]], [.para rt2 s2], contentHeight d.geom - a2⟩ := by
      rw [stepBlock]
      case x => simp
      rw [he2]
      dsimp only
      rw [if_pos hle2]
      simp
    rw [render, hb]
    simp only [renderAux, hs1, hs2, hs3]
    rfl

/-- Witness for C2 at the concrete document `docBreak`: a paragraph, an
explicit PageBreak and a second paragraph render to two pages with one
paragraph each. -/
theorem claim2_witness :
    docBreak.blocks = [.para [] "body", .pageBreak, .para [] "body"] ∧
    render docBreak = .ok [[.para [] "body"], [.para [] "body"]] :=
  ⟨rfl, claim2_pagebreak_semantics.2 docBreak [] "body" [] "body" 12 12 12 12 rfl
    (blockExtent_para_nil _)
    (by norm_num [contentHeight, docBreak, smallGeom])
    (blockExtent_para_nil _)
    (by norm_num [contentHeight, docBreak, smallGeom])⟩

end DocSpec
